import Mathlib

/-!
Verification development for the job-ingestion and normalization pipeline
(`src/sources/rss_client.py`) and the resume-bullet post-processing
(`src/generator/resume_tailor.py`).

The Python code is shallowly embedded: strings are Lean `String`s (ASCII and
Latin-1 behaviour of Python's `str` operations is modelled; none of the data
handled by the claims leaves that range), dict-backed feed entries become a
structure whose absent keys are the empty string (Python code only ever reads
them through `entry.get(key, "")` or truthiness tests, for which a missing key
and an empty value coincide), and the regular expressions of the module, which
are fixed literals, are translated into dedicated matching functions with the
leftmost-match and greedy-with-backtracking semantics of `re.search`.
-/

/-! ### Python character and string primitives -/

/-- Python whitespace (`str.strip`, `str.isspace`, and `\s` in `re` for text
patterns), restricted to the ASCII/Latin-1 range handled by this pipeline. -/
def pyIsSpace (c : Char) : Bool :=
  c = ' ' ∨ c = '\t' ∨ c = '\n' ∨ c = '\r' ∨ c = '\x0b' ∨ c = '\x0c' ∨
  c = '\x1c' ∨ c = '\x1d' ∨ c = '\x1e' ∨ c = '\x1f' ∨ c = '\x85' ∨ c = '\xa0'

/-- Python `str.lower` / `re.IGNORECASE` folding on the ASCII range. -/
def lcChar (c : Char) : Char := c.toLower

/-- Strip characters satisfying `p` from both ends of a list (Python `str.strip`). -/
def stripWith (p : Char → Bool) (l : List Char) : List Char :=
  List.rdropWhile p (List.dropWhile p l)

/-- Python `str.strip()` (no argument: whitespace). -/
def stripList (l : List Char) : List Char := stripWith pyIsSpace l

/-- Python `str.strip()` on `String`. -/
def pyStrip (s : String) : String := String.mk (stripList s.toList)

/-- Python `str.strip(chars)`: the argument is a set of characters removed
from both ends. -/
def pyStripChars (cs : String) (s : String) : String :=
  String.mk (stripWith (fun c => cs.toList.contains c) s.toList)

/-- Python `str.lower` on `String` (ASCII range). -/
def pyLower (s : String) : String := String.mk (s.toList.map lcChar)

/-- Python substring test `needle in hay` on character lists. -/
def containsSub (needle : List Char) : List Char → Bool
  | [] => needle.isEmpty
  | c :: rest => needle.isPrefixOf (c :: rest) || containsSub needle rest

/-! ### The specialized regular-expression engine

Every pattern in `rss_client.py` is a fixed literal.  The labelled patterns
(`"Location:\s*([^,\n]+)"`, `"Deadline:\s*([^,\n]+)"`, ...) all share the
shape: literal label, then `\s*`, then the capture `([^,\n]+)`.  `re.search`
finds the leftmost start position where the whole pattern matches; at such a
position the greedy `\s*` prefers the longest whitespace run and backtracks
one character at a time until the mandatory `[^,\n]+` (greedy, hence maximal)
can take at least one character. -/

/-- Case-insensitive match of the literal `label` as a prefix of `s`,
returning the remainder on success. -/
def matchLabelAt : List Char → List Char → Option (List Char)
  | [], s => some s
  | _ :: _, [] => none
  | l :: ls, c :: cs => if lcChar c = lcChar l then matchLabelAt ls cs else none

/-- Length of the maximal `\s*` prefix. -/
def wsCount : List Char → Nat
  | [] => 0
  | c :: cs => if pyIsSpace c then wsCount cs + 1 else 0

/-- Maximal run matched by the character class `[^,\n]`. -/
def classRun (s : List Char) : List Char :=
  s.takeWhile (fun c => ¬(c = ',' ∨ c = '\n'))

/-- Backtracking for `\s*([^,\n]+)`: try consuming `k` whitespace characters,
largest `k` first, and return the first nonempty `[^,\n]+` run. -/
def capFrom (s : List Char) : Nat → Option (List Char)
  | 0 => if (classRun s).isEmpty then none else some (classRun s)
  | k + 1 =>
    if (classRun (s.drop (k + 1))).isEmpty then capFrom s k
    else some (classRun (s.drop (k + 1)))

/-- Match `\s*([^,\n]+)` at the start of `s`, returning the capture. -/
def capTail (s : List Char) : Option (List Char) := capFrom s (wsCount s)

/-- `re.search` for a pattern `label` + `\s*([^,\n]+)` (case-insensitive):
scan start positions left to right; the labels used are all nonempty. -/
def searchCapture (label : List Char) : List Char → Option (List Char)
  | [] => none
  | c :: cs =>
    match matchLabelAt label (c :: cs) with
    | some rest =>
      match capTail rest with
      | some cap => some cap
      | none => searchCapture label cs
    | none => searchCapture label cs

/-- The alternation `Remote|Work from home|WFH` (no group, so `group(0)` is
the matched text): length matched at the current position, alternatives tried
in order. -/
def remoteAltAt (s : List Char) : Option Nat :=
  if (matchLabelAt (("Remote").toList) s).isSome then some 6
  else if (matchLabelAt (("Work from home").toList) s).isSome then some 14
  else if (matchLabelAt (("WFH").toList) s).isSome then some 3
  else none

/-- `re.search` for `Remote|Work from home|WFH`, returning `group(0)`. -/
def searchRemote : List Char → Option (List Char)
  | [] => none
  | c :: cs =>
    match remoteAltAt (c :: cs) with
    | some n => some ((c :: cs).take n)
    | none => searchRemote cs

/-- `[A-Z]` / `[a-z]` under `re.IGNORECASE`: any ASCII letter. -/
def reLetter (c : Char) : Bool := c.isAlpha

/-- `[a-z\s]` under `re.IGNORECASE`. -/
def reLetterWs (c : Char) : Bool := c.isAlpha || pyIsSpace c

/-- Match `([A-Z][a-z]+,\s*[A-Z]{2})` at the start of `s` ("City, ST").
Since `,` is not matched by `[a-z]` and whitespace is not matched by `[A-Z]`,
the greedy subpatterns cannot backtrack productively: the letter run before
the comma and the whitespace run after it are the maximal ones. -/
def cityStAt (s : List Char) : Option (List Char) :=
  match s with
  | [] => none
  | c :: rest =>
    if reLetter c then
      let run := rest.takeWhile reLetter
      if run.isEmpty then none
      else
        match rest.drop run.length with
        | ',' :: r2 =>
          let w := r2.takeWhile pyIsSpace
          match r2.drop w.length with
          | a :: b :: _ =>
            if reLetter a ∧ reLetter b then some (c :: run ++ ',' :: w ++ [a, b])
            else none
          | _ => none
        | _ => none
    else none

/-- `re.search` for the "City, ST" pattern; the whole pattern is the group. -/
def searchCitySt : List Char → Option (List Char)
  | [] => none
  | c :: cs =>
    match cityStAt (c :: cs) with
    | some m => some m
    | none => searchCitySt cs

/-- Match `([A-Z][a-z\s]+,\s*[A-Z][a-z\s]+)` at the start of `s`
("City, Country").  As above, `,` is outside `[a-z\s]` and whitespace is
outside `[A-Z]`, so the greedy runs are forced to be maximal. -/
def cityCountryAt (s : List Char) : Option (List Char) :=
  match s with
  | [] => none
  | c :: rest =>
    if reLetter c then
      let run := rest.takeWhile reLetterWs
      if run.isEmpty then none
      else
        match rest.drop run.length with
        | ',' :: r2 =>
          let w := r2.takeWhile pyIsSpace
          match r2.drop w.length with
          | a :: r3 =>
            if reLetter a then
              let run2 := r3.takeWhile reLetterWs
              if run2.isEmpty then none
              else some (c :: run ++ ',' :: w ++ a :: run2)
            else none
          | [] => none
        | _ => none
    else none

/-- `re.search` for the "City, Country" pattern. -/
def searchCityCountry : List Char → Option (List Char)
  | [] => none
  | c :: cs =>
    match cityCountryAt (c :: cs) with
    | some m => some m
    | none => searchCityCountry cs

/-! ### Feed entries and job records -/

/-- A feedparser entry, as read by `rss_client.py`.  String-valued keys that
the code reads with `entry.get(key, "")` are plain strings (absent key =
empty string, an identification the code cannot distinguish); `location` and
`tags` are read through `hasattr`, hence `Option`; `content` is `Option`
because its presence is tested with a bare `entry.get("content")` (the
feedparser list-of-parts case collapses to its text value). -/
structure Entry where
  location : Option String := none
  summary : String := ""
  description : String := ""
  author : String := ""
  dc_creator : String := ""
  publisher : String := ""
  title : String := ""
  link : String := ""
  tags : Option (List String) := none
  content : Option String := none
  deriving Repr, DecidableEq

/-- The normalized job record built by `_create_job_record`. -/
structure Job where
  company : String
  role : String
  location : String
  deadline : String
  apply_link : String
  source : String
  notes : String
  deriving Repr, DecidableEq

/-! ### `_extract_location` -/

/-- The tag keywords scanned by `_extract_location`. -/
def LOC_TAG_WORDS : List String := [("location"), ("city"), ("remote"), ("office")]

/-- The tag loop of `_extract_location`: first tag whose lower-cased term
contains one of the keywords; its original term, stripped. -/
def tagLocation : List String → Option String
  | [] => none
  | term :: rest =>
    if LOC_TAG_WORDS.any (fun w => containsSub w.toList ((pyLower term).toList)) then
      some (pyStrip term)
    else tagLocation rest

/-- `LOCATION_PATTERNS`, in source order, as matching functions returning
`group(1)` when the pattern has a group and `group(0)` otherwise. -/
def LOCATION_PATTERNS : List (List Char → Option (List Char)) :=
  [ searchCapture (("Location:").toList)
  , searchCapture (("Based in:").toList)
  , searchCapture (("Office:").toList)
  , searchRemote
  , searchCitySt
  , searchCityCountry ]

/-- The part of `_extract_location` after the structured-field check:
pattern scan over `summary + " " + description`, then the tag scan. -/
def _extract_location_body (e : Entry) : String :=
  let content := (e.summary ++ (" ") ++ e.description).toList
  match LOCATION_PATTERNS.findSome? (fun p => p content) with
  | some loc => String.mk (stripList loc)
  | none =>
    match e.tags with
    | some ts =>
      match tagLocation ts with
      | some t => t
      | none => ("")
    | none => ("")

/-- `_extract_location`: structured `entry.location` first (if present and
truthy), then patterns, then tags, else empty. -/
def _extract_location (e : Entry) : String :=
  match e.location with
  | some loc => if loc ≠ "" then pyStrip loc else _extract_location_body e
  | none => _extract_location_body e

/-! ### `_extract_deadline` and `datetime.strptime` -/

def digitVal (c : Char) : Nat := c.toNat - 48

def digitChar (n : Nat) : Char := Char.ofNat (48 + n)

/-- A `datetime.date`; only the calendar fields matter here. -/
structure PyDate where
  year : Nat
  month : Nat
  day : Nat
  deriving Repr, DecidableEq

def isLeap (y : Nat) : Bool := y % 4 = 0 ∧ (y % 100 ≠ 0 ∨ y % 400 = 0)

def daysInMonth (y m : Nat) : Nat :=
  if m = 2 then (if isLeap y then 29 else 28)
  else if m = 4 ∨ m = 6 ∨ m = 9 ∨ m = 11 then 30
  else 31

/-- The validation performed by the `datetime` constructor (raises
`ValueError`, caught by the format loop, on an impossible date). The month
range is already enforced by the `%m`/`%B` field patterns. -/
def mkDate (y m d : Nat) : Option PyDate :=
  if 1 ≤ y ∧ y ≤ 9999 ∧ 1 ≤ m ∧ m ≤ 12 ∧ 1 ≤ d ∧ d ≤ daysInMonth y m then
    some (PyDate.mk y m d)
  else none

/-- Zero-padded two-digit rendering (`date.isoformat` components). -/
def pad2 (n : Nat) : List Char := [digitChar (n / 10 % 10), digitChar (n % 10)]

/-- Zero-padded four-digit rendering. -/
def pad4 (n : Nat) : List Char :=
  [digitChar (n / 1000 % 10), digitChar (n / 100 % 10), digitChar (n / 10 % 10), digitChar (n % 10)]

/-- `date.isoformat()`. -/
def isoformat (d : PyDate) : String :=
  String.mk (pad4 d.year ++ '-' :: pad2 d.month ++ '-' :: pad2 d.day)

/-- `%Y` in `_strptime`: exactly four digits. -/
def matchY4 : List Char → Option (Nat × List Char)
  | a :: b :: c :: d :: rest =>
    if a.isDigit ∧ b.isDigit ∧ c.isDigit ∧ d.isDigit then
      some (((digitVal a * 10 + digitVal b) * 10 + digitVal c) * 10 + digitVal d, rest)
    else none
  | _ => none

/-- `%m` in `_strptime`: the alternation `1[0-2]|0[1-9]|[1-9]`, all viable
parses in regex priority order. -/
def altM (s : List Char) : List (Nat × List Char) :=
  (match s with
   | a :: b :: rest =>
     if a = '1' ∧ (b = '0' ∨ b = '1' ∨ b = '2') then [(10 + digitVal b, rest)] else []
   | _ => []) ++
  (match s with
   | a :: b :: rest =>
     if a = '0' ∧ b.isDigit ∧ b ≠ '0' then [(digitVal b, rest)] else []
   | _ => []) ++
  (match s with
   | a :: rest => if a.isDigit ∧ a ≠ '0' then [(digitVal a, rest)] else []
   | _ => [])

/-- `%d` in `_strptime`: the alternation `3[01]|[12]\d|0[1-9]|[1-9]`. -/
def altD (s : List Char) : List (Nat × List Char) :=
  (match s with
   | a :: b :: rest =>
     if a = '3' ∧ (b = '0' ∨ b = '1') then [(30 + digitVal b, rest)] else []
   | _ => []) ++
  (match s with
   | a :: b :: rest =>
     if (a = '1' ∨ a = '2') ∧ b.isDigit then [(digitVal a * 10 + digitVal b, rest)] else []
   | _ => []) ++
  (match s with
   | a :: b :: rest =>
     if a = '0' ∧ b.isDigit ∧ b ≠ '0' then [(digitVal b, rest)] else []
   | _ => []) ++
  (match s with
   | a :: rest => if a.isDigit ∧ a ≠ '0' then [(digitVal a, rest)] else []
   | _ => [])

/-- `\s+` (a literal space in a strptime format is compiled to `\s+`). -/
def wsPlus (s : List Char) : Option (List Char) :=
  if wsCount s = 0 then none else some (s.drop (wsCount s))

def MONTH_NAMES : List (Nat × String) :=
  [ (1, ("January")), (2, ("February")), (3, ("March")), (4, ("April"))
  , (5, ("May")), (6, ("June")), (7, ("July")), (8, ("August"))
  , (9, ("September")), (10, ("October")), (11, ("November")), (12, ("December")) ]

def MONTH_ABBR : List (Nat × String) :=
  [ (1, ("Jan")), (2, ("Feb")), (3, ("Mar")), (4, ("Apr")), (5, ("May")), (6, ("Jun"))
  , (7, ("Jul")), (8, ("Aug")), (9, ("Sep")), (10, ("Oct")), (11, ("Nov")), (12, ("Dec")) ]

/-- `%B` / `%b`: case-insensitive month-name alternation (no month name is a
prefix of another within either list, so order is immaterial). -/
def matchMonthName (names : List (Nat × String)) (s : List Char) : Option (Nat × List Char) :=
  names.findSome? (fun p => (matchLabelAt p.2.toList s).map (fun r => (p.1, r)))

/-- The regex stage of `strptime(txt, "%Y-%m-%d")`: full match required. -/
def regexYmd (txt : List Char) : Option (Nat × Nat × Nat) :=
  match matchY4 txt with
  | none => none
  | some (y, rest) =>
    match rest with
    | '-' :: r2 =>
      (altM r2).findSome? (fun mr =>
        match mr.2 with
        | '-' :: r4 =>
          (altD r4).findSome? (fun dr =>
            if dr.2.isEmpty then some (y, mr.1, dr.1) else none)
        | _ => none)
    | _ => none

/-- The regex stage of `strptime(txt, "%m/%d/%Y")`. -/
def regexMdY (txt : List Char) : Option (Nat × Nat × Nat) :=
  (altM txt).findSome? (fun mr =>
    match mr.2 with
    | '/' :: r2 =>
      (altD r2).findSome? (fun dr =>
        match dr.2 with
        | '/' :: r4 =>
          match matchY4 r4 with
          | some (y, r5) => if r5.isEmpty then some (y, mr.1, dr.1) else none
          | none => none
        | _ => none)
    | _ => none)

/-- The regex stage of `strptime(txt, "%B %d, %Y")` (or `%b` with
abbreviated names): month name, `\s+`, day, literal comma, `\s+`, year. -/
def regexNameDY (names : List (Nat × String)) (txt : List Char) : Option (Nat × Nat × Nat) :=
  match matchMonthName names txt with
  | none => none
  | some (m, r1) =>
    match wsPlus r1 with
    | none => none
    | some r2 =>
      (altD r2).findSome? (fun dr =>
        match dr.2 with
        | ',' :: r3 =>
          match wsPlus r3 with
          | none => none
          | some r4 =>
            match matchY4 r4 with
            | some (y, r5) => if r5.isEmpty then some (y, m, dr.1) else none
            | none => none
        | _ => none)

/-- `datetime.strptime(txt, fmt).date()` for one format: regex stage, then
date validation. -/
def strptimeDate (stage : List Char → Option (Nat × Nat × Nat)) (txt : String) : Option PyDate :=
  match stage txt.toList with
  | some (y, m, d) => mkDate y m d
  | none => none

/-- The format loop of `_extract_deadline`: first format that parses wins and
is rendered with `date().isoformat()`; otherwise the raw text is returned. -/
def tryFormats (txt : String) : String :=
  match strptimeDate regexYmd txt with
  | some d => isoformat d
  | none =>
    match strptimeDate regexMdY txt with
    | some d => isoformat d
    | none =>
      match strptimeDate (regexNameDY MONTH_NAMES) txt with
      | some d => isoformat d
      | none =>
        match strptimeDate (regexNameDY MONTH_ABBR) txt with
        | some d => isoformat d
        | none => txt

/-- The labels of `DEADLINE_PATTERNS` (each pattern is label + `\s*([^,\n]+)`). -/
def DEADLINE_LABELS : List String := [("Apply by:"), ("Deadline:"), ("Applications close:")]

/-- The pattern loop of `_extract_deadline`: first matching pattern wins; its
capture is stripped and fed to the date-format loop. -/
def deadlineLoop : List String → List Char → String
  | [], _ => ("")
  | lab :: rest, content =>
    match searchCapture lab.toList content with
    | some cap => tryFormats (String.mk (stripList cap))
    | none => deadlineLoop rest content

/-- `_extract_deadline`. -/
def _extract_deadline (e : Entry) : String :=
  deadlineLoop DEADLINE_LABELS (e.summary ++ (" ") ++ e.description).toList

/-! ### `_create_job_record` and `_generate_job_key` -/

/-- `_create_job_record`: normalize one entry.  The company fallback chain is
Python `or`, which falls through on empty strings only; `.strip()` is applied
to the selected value.  The notes join mirrors the summary/content logic for
the string-valued `content` model. -/
def _create_job_record (e : Entry) (feed_url : String) : Job :=
  let company :=
    pyStrip (if e.author ≠ "" then e.author
             else if e.dc_creator ≠ "" then e.dc_creator
             else if e.publisher ≠ "" then e.publisher
             else ("Unknown"))
  let role := pyStrip e.title
  let location := _extract_location e
  let deadline := _extract_deadline e
  let apply_link := pyStrip e.link
  let notes_parts :=
    (if e.summary ≠ "" then [pyStrip e.summary] else []) ++
    (match e.content with
     | some c =>
       if c ≠ "" ∧ c ≠ e.summary ∧ pyStrip c ≠ pyStrip e.summary then [pyStrip c] else []
     | none => [])
  let notes := String.intercalate (" | ") notes_parts
  { company := company, role := role, location := location, deadline := deadline,
    apply_link := apply_link, source := ("rss:") ++ feed_url, notes := notes }

/-- `_generate_job_key`: `f"{company.lower().strip()}|{role.lower().strip()}|{link.strip()}"`. -/
def _generate_job_key (job : Job) : String :=
  pyStrip (pyLower job.company) ++ ("|") ++ pyStrip (pyLower job.role) ++ ("|") ++
    pyStrip job.apply_link

/-- The identity triple the specification speaks about: lower-cased trimmed
company and role, trimmed apply link. -/
def identityTriple (job : Job) : String × String × String :=
  (pyStrip (pyLower job.company), pyStrip (pyLower job.role), pyStrip job.apply_link)

/-! ### `_is_valid_rss_url` (`urllib.parse.urlparse`) -/

/-- Characters allowed after the first letter of a URL scheme. -/
def schemeChar (c : Char) : Bool := c.isAlphanum ∨ c = '+' ∨ c = '-' ∨ c = '.'

/-- Scan for the scheme terminator `:`; fail on a non-scheme character. -/
def schemeScan (acc : List Char) : List Char → Option (List Char × List Char)
  | [] => none
  | c :: rest =>
    if c = ':' then some (acc.reverse, rest)
    else if schemeChar c then schemeScan (c :: acc) rest
    else none

/-- `urlparse` scheme splitting: lower-cased scheme (or empty) and remainder. -/
def splitScheme (l : List Char) : List Char × List Char :=
  match l with
  | [] => ([], [])
  | c :: rest =>
    if c.isAlpha then
      match schemeScan [c] rest with
      | some (sch, r) => (sch.map lcChar, r)
      | none => ([], c :: rest)
    else ([], c :: rest)

/-- `urlparse` netloc: present only after `//`, up to the first `/`, `?` or `#`. -/
def netlocOf (rest : List Char) : List Char :=
  match rest with
  | '/' :: '/' :: r => r.takeWhile (fun c => ¬(c = '/' ∨ c = '?' ∨ c = '#'))
  | _ => []

/-- `_is_valid_rss_url`: `bool(parsed.scheme and parsed.netloc)`, with the
`try`/`except` returning `False` when `urlparse` raises (mismatched square
brackets in the netloc). -/
def _is_valid_rss_url (url : String) : Bool :=
  let p := splitScheme url.toList
  let netloc := netlocOf p.2
  if (netloc.contains ('[') ∧ ¬netloc.contains (']')) ∨
     (netloc.contains (']') ∧ ¬netloc.contains ('[')) then false
  else ¬p.1.isEmpty ∧ ¬netloc.isEmpty

/-! ### `parse_feeds`

The pipeline touches the outside world in two places: `feedparser.parse`
(which may raise, return a malformed "bozo" feed, or return entries) and the
per-entry record construction, whose `except` clause tolerates entries whose
processing raises.  Both are abstracted by outcome values supplied by a
`world` function; everything else is the literal control flow of the source.
The `time.sleep` call and each fetch attempt are recorded as events so that
rate-limit and isolation claims are statable. -/

/-- One entry of a parsed feed: either a processable entry or one whose
processing raises (caught by the inner `except`). -/
inductive EntryOutcome where
  | raising : EntryOutcome
  | ok : Entry → EntryOutcome
  deriving Repr, DecidableEq

/-- Outcome of `feedparser.parse` on one address. -/
inductive FetchOutcome where
  | raising : FetchOutcome
  | parsed : Bool → List EntryOutcome → FetchOutcome

/-- Observable side effects of the feed loop. -/
inductive FeedEvent where
  | sleep : FeedEvent
  | fetch : String → FeedEvent
  deriving Repr, DecidableEq

/-- `ModuleNotFoundError("feedparser is required to parse RSS feeds")`. -/
inductive PyError where
  | moduleNotFoundError : PyError
  deriving Repr, DecidableEq

/-- The body of the entry loop: build the record, reject on missing
role/link, reject duplicates, otherwise record the key and append. -/
def entryStep (url : String) (st : List String × List Job) (eo : EntryOutcome) :
    List String × List Job :=
  match eo with
  | .raising => st
  | .ok e =>
    let job := _create_job_record e url
    if job.role = "" ∨ job.apply_link = "" then st
    else
      let job_key := _generate_job_key job
      if job_key ∈ st.1 then st
      else (job_key :: st.1, st.2 ++ [job])

/-- State change contributed by one fetched feed (the bozo flag is only
logged; a feed without entries is skipped). -/
def feedState (url : String) (st : List String × List Job) (fo : FetchOutcome) :
    List String × List Job :=
  match fo with
  | .raising => st
  | .parsed _ entries => if entries.isEmpty then st else entries.foldl (entryStep url) st

/-- The feed loop of `parse_feeds`: `for i, url in enumerate(feeds)`.  An
invalid address is skipped before the rate-limit delay and before any fetch;
for a valid address the delay fires when `i > 0`, then the fetch happens. -/
def runFeeds (world : String → FetchOutcome) :
    List String → Nat → List String × List Job → (List String × List Job) × List FeedEvent
  | [], _, st => (st, [])
  | url :: rest, i, st =>
    if _is_valid_rss_url url then
      let st2 := feedState url st (world url)
      let r := runFeeds world rest (i + 1) st2
      (r.1, (if 0 < i then [FeedEvent.sleep] else []) ++ FeedEvent.fetch url :: r.2)
    else runFeeds world rest (i + 1) st

/-- The job list produced by the feed loop from the empty initial state. -/
def parse_feeds_jobs (world : String → FetchOutcome) (feeds : List String) : List Job :=
  (runFeeds world feeds 0 ([], [])).1.2

/-- The event trace of the feed loop. -/
def parse_feeds_events (world : String → FetchOutcome) (feeds : List String) : List FeedEvent :=
  (runFeeds world feeds 0 ([], [])).2

/-- `parse_feeds`: raises `ModuleNotFoundError` when the optional
`feedparser` dependency is absent, returns `[]` for an empty feed list, and
otherwise runs the feed loop.  Every other failure is caught inside the
loop, so the installed case always returns normally. -/
def parse_feeds (feedparserInstalled : Bool) (world : String → FetchOutcome)
    (feeds : List String) : Except PyError (List Job) :=
  if feedparserInstalled = false then .error .moduleNotFoundError
  else if feeds.isEmpty then .ok []
  else .ok (parse_feeds_jobs world feeds)

/-! ### Candidate stream and first-occurrence deduplication

`parse_feeds` is, in effect, a first-occurrence filter keyed by
`_generate_job_key` over the stream of valid candidate records, taken in
feed-supply order and entry order.  The following definitions name that
stream and that filter so the deduplication claims can be stated. -/

/-- Valid candidate records contributed by one entry outcome. -/
def entryCandidates (url : String) (eo : EntryOutcome) : List Job :=
  match eo with
  | .raising => []
  | .ok e =>
    let job := _create_job_record e url
    if job.role = "" ∨ job.apply_link = "" then [] else [job]

/-- Valid candidate records contributed by one fetch outcome. -/
def feedCandidates (url : String) (fo : FetchOutcome) : List Job :=
  match fo with
  | .raising => []
  | .parsed _ entries => entries.flatMap (entryCandidates url)

/-- The full candidate stream: valid addresses in supply order, entries in
feed order. -/
def candidates (world : String → FetchOutcome) (feeds : List String) : List Job :=
  (feeds.filter (fun u => _is_valid_rss_url u)).flatMap (fun u => feedCandidates u (world u))

/-- One deduplication step over the candidate stream (the seen-set is a list
of keys; membership is all that is used of it). -/
def dedupStep (st : List String × List Job) (job : Job) : List String × List Job :=
  let job_key := _generate_job_key job
  if job_key ∈ st.1 then st
  else (job_key :: st.1, st.2 ++ [job])

/-- Folding the deduplication step over a candidate list. -/
def dedupFold (st : List String × List Job) (l : List Job) : List String × List Job :=
  l.foldl dedupStep st

/-- First-occurrence filter in direct (cons) form. -/
def dedupFirst (seen : List String) : List Job → List Job
  | [] => []
  | j :: rest =>
    if _generate_job_key j ∈ seen then dedupFirst seen rest
    else j :: dedupFirst (_generate_job_key j :: seen) rest

/-- The seen-key list after the first-occurrence filter. -/
def dedupSeen (seen : List String) : List Job → List String
  | [] => seen
  | j :: rest =>
    if _generate_job_key j ∈ seen then dedupSeen seen rest
    else dedupSeen (_generate_job_key j :: seen) rest

/-! ### `tailor_resume_bullets` (`resume_tailor.py`) -/

/-- Python `str.splitlines` line boundaries. -/
def isLineBoundary (c : Char) : Bool :=
  c = '\n' ∨ c = '\r' ∨ c = '\x0b' ∨ c = '\x0c' ∨ c = '\x1c' ∨ c = '\x1d' ∨
  c = '\x1e' ∨ c = '\x85' ∨ c = '\u2028' ∨ c = '\u2029'

/-- `str.splitlines` worker: `\r\n` is one boundary; no trailing empty line. -/
def splitLinesAux (acc : List Char) : List Char → List (List Char)
  | [] => if acc.isEmpty then [] else [acc.reverse]
  | '\r' :: '\n' :: rest => acc.reverse :: splitLinesAux [] rest
  | c :: rest =>
    if isLineBoundary c then acc.reverse :: splitLinesAux [] rest
    else splitLinesAux (c :: acc) rest

/-- Python `str.splitlines()`. -/
def pySplitlines (s : String) : List String := (splitLinesAux [] s.toList).map String.mk

/-- `str.split('\n')` (used by `textwrap.dedent`; keeps empty pieces). -/
def splitNl (acc : List Char) : List Char → List (List Char)
  | [] => [acc.reverse]
  | '\n' :: rest => acc.reverse :: splitNl [] rest
  | c :: rest => splitNl (c :: acc) rest

/-- Longest common prefix of two character lists. -/
def lcp : List Char → List Char → List Char
  | a :: as, b :: bs => if a = b then a :: lcp as bs else []
  | _, _ => []

/-- `textwrap.dedent`: blank out whitespace-only lines, compute the common
margin of the remaining lines' space/tab indents, and remove it. -/
def pyDedent (text : String) : String :=
  let lines := (splitNl [] text.toList).map (fun l =>
    if ¬l.isEmpty ∧ l.all (fun c => c = ' ' ∨ c = '\t') then [] else l)
  let indents := (lines.filter (fun l => ¬l.isEmpty)).map
    (fun l => l.takeWhile (fun c => c = ' ' ∨ c = '\t'))
  let margin :=
    match indents with
    | [] => []
    | ind :: rest => rest.foldl lcp ind
  let outLines :=
    if margin.isEmpty then lines
    else lines.map (fun l => if margin.isPrefixOf l then l.drop margin.length else l)
  String.intercalate ("\n") (outLines.map String.mk)

/-- Python `str.startswith` (on whole strings). -/
def pyStartsWith (head s : String) : Bool := head.toList.isPrefixOf s.toList

/-- `SYSTEM_PROMPT` of `resume_tailor.py`. -/
def SYSTEM_PROMPT : String :=
  "You write concise, impact-oriented resume bullets using STAR framing. Optimize for ATS keywords and clarity."

/-- The dedented f-string prompt of `tailor_resume_bullets`. -/
def buildPrompt (job_title job_desc : String) (base_bullets : List String) : String :=
  let bullets_section :=
    if base_bullets.isEmpty then "" else String.intercalate ("\n    - ") base_bullets
  pyDedent
    ("\n        System: " ++ SYSTEM_PROMPT ++
     "\n\n        Role: " ++ job_title ++
     "\n        Job Description:\n        " ++ job_desc ++
     "\n\n        Base bullets:\n        - " ++ bullets_section ++
     "\n\n        Rewrite 4-5 bullets that best match the role. Keep each bullet under 25 words.\n        Use strong verbs and quantify impact.\n        ")

/-- `tailor_resume_bullets`, with the language model abstracted as the
`complete` function (`LLM.complete`); the list comprehension
`[line.strip("- ") for line in output.splitlines() if line.strip().startswith("-")]`
is the filtered and mapped line list. -/
def tailor_resume_bullets (complete : String → String) (job_title job_desc : String)
    (base_bullets : List String) : List String :=
  let output := complete (buildPrompt job_title job_desc base_bullets)
  ((pySplitlines output).filter (fun line => pyStartsWith ("-") (pyStrip line))).map
    (fun line => pyStripChars ("- ") line)

/-- The claim's reading of the bullet post-processing: keep the lines whose
whitespace-trimmed form starts with a dash, and trim only the LEADING dash
and space markers of each kept line. -/
def tailor_bullets_claimed (complete : String → String) (job_title job_desc : String)
    (base_bullets : List String) : List String :=
  let output := complete (buildPrompt job_title job_desc base_bullets)
  ((pySplitlines output).filter (fun line => pyStartsWith ("-") (pyStrip line))).map
    (fun line => String.mk (line.toList.dropWhile (fun c => c = '-' ∨ c = ' ')))

/-- Removal of a maximal trailing run of characters satisfying `p`, written
by direct recursion (used to state the amended claim independently of the
`reverse`-based `str.strip` model). -/
def trimEnd (p : Char → Bool) : List Char → List Char
  | [] => []
  | c :: cs =>
    match trimEnd p cs with
    | [] => if p c then [] else [c]
    | r => c :: r

/-- The amended reading: each kept line is stripped of leading and trailing
characters drawn from the dash/space set (the rest of the line unchanged). -/
def tailor_bullets_amended (complete : String → String) (job_title job_desc : String)
    (base_bullets : List String) : List String :=
  let output := complete (buildPrompt job_title job_desc base_bullets)
  ((pySplitlines output).filter (fun line => pyStartsWith ("-") (pyStrip line))).map
    (fun line => String.mk (trimEnd (fun c => c = '-' ∨ c = ' ')
      (line.toList.dropWhile (fun c => c = '-' ∨ c = ' '))))

/-! ### Date renderings used to state the deadline claims -/

/-- The characters of a `YYYY-MM-DD` date (zero-padded, four-digit year). -/
def isoDateChars (y m d : Nat) : List Char := pad4 y ++ ('-' :: (pad2 m ++ ('-' :: pad2 d)))

/-- A `YYYY-MM-DD` date string. -/
def isoDateStr (y m d : Nat) : String := String.mk (isoDateChars y m d)

/-- The characters of a `MM/DD/YYYY` date (zero-padded). -/
def mdyDateChars (m d y : Nat) : List Char := pad2 m ++ ('/' :: (pad2 d ++ ('/' :: pad4 y)))

/-- A `MM/DD/YYYY` date string. -/
def mdyDateStr (m d y : Nat) : String := String.mk (mdyDateChars m d y)

/-! ### Concrete scenario data -/

def goodFeedUrl : String := "http://feeds.example/good"

def badFeedUrl : String := "http://feeds.example/bad"

def entryA : Entry := { author := "Acme", title := "Software Intern", link := "http://jobs.example/a" }

def entryB : Entry := { author := "Beta", title := "Data Intern", link := "http://jobs.example/b" }

/-- Same company/role/link as `entryA` but different notes. -/
def entryA2 : Entry :=
  { author := "Acme", title := "Software Intern", link := "http://jobs.example/a",
    summary := "different notes" }

/-- First feed raises on fetch, second feed has exactly two valid entries. -/
def twoEntryWorld : String → FetchOutcome := fun u =>
  if u = goodFeedUrl then .parsed false [.ok entryA, .ok entryB] else .raising

/-- First feed raises; the good feed additionally holds an entry whose
processing raises and a duplicate of `entryA` with different notes. -/
def messyWorld : String → FetchOutcome := fun u =>
  if u = goodFeedUrl then .parsed false [.ok entryA, .raising, .ok entryA2, .ok entryB]
  else .raising

def jobA : Job := _create_job_record entryA goodFeedUrl

def jobB : Job := _create_job_record entryB goodFeedUrl

/-- Company containing the key delimiter `|`. -/
def eKeyA : Entry := { author := "A|B", title := "C", link := "D" }

/-- Different identity triple with the same flattened key as `eKeyA`. -/
def eKeyB : Entry := { author := "A", title := "B|C", link := "D" }

def keyFeedUrl : String := "http://feeds.example/x"

def wKey : String → FetchOutcome := fun _ => .parsed false [.ok eKeyA, .ok eKeyB]

def jKeyA : Job := _create_job_record eKeyA keyFeedUrl

def jKeyB : Job := _create_job_record eKeyB keyFeedUrl

def eSeattle : Entry := { summary := "Location: Seattle, WA" }

def eNoLocation : Entry := { summary := "great opportunity" }

def eDeadlineIsoEx : Entry := { summary := "Deadline: 2024-05-01" }

def eDeadlineFriday : Entry := { summary := "Deadline: next Friday" }

def eDeadlineComma : Entry := { summary := "Deadline: March 15, 2024" }

def eNoDeadline : Entry := { summary := "Great role" }

def entryWsAuthor : Entry := { author := "   ", title := "T", link := "L" }

/-- A completion whose bullet lines carry trailing dash markers. -/
def completionDemo : String → String := fun _ => "- alpha -\nplain\n- beta"

/-! ## Theorems -/

/-! ### The feed loop as a first-occurrence filter over the candidate stream -/

theorem dedupFold_append (st : List String × List Job) (l1 l2 : List Job) :
    dedupFold st (l1 ++ l2) = dedupFold (dedupFold st l1) l2 :=
  List.foldl_append _ _ _ _

theorem entryStep_eq_dedupFold (url : String) (st : List String × List Job) (eo : EntryOutcome) :
    entryStep url st eo = dedupFold st (entryCandidates url eo) := by
  cases eo with
  | raising => rfl
  | ok e =>
    simp only [entryStep, entryCandidates, dedupFold, dedupStep]
    split
    · rfl
    · rfl

theorem foldl_entryStep_eq (url : String) (entries : List EntryOutcome) :
    ∀ st, entries.foldl (entryStep url) st = dedupFold st (entries.flatMap (entryCandidates url)) := by
  induction entries with
  | nil => intro st; rfl
  | cons eo rest ih =>
    intro st
    rw [List.foldl_cons, ih, List.flatMap_cons, dedupFold_append, entryStep_eq_dedupFold]

theorem feedState_eq (url : String) (st : List String × List Job) (fo : FetchOutcome) :
    feedState url st fo = dedupFold st (feedCandidates url fo) := by
  cases fo with
  | raising => rfl
  | parsed b entries =>
    cases entries with
    | nil => rfl
    | cons eo rest =>
      show (eo :: rest).foldl (entryStep url) st = _
      rw [foldl_entryStep_eq]
      rfl

theorem candidates_cons_valid (world : String → FetchOutcome) (url : String) (rest : List String)
    (h : _is_valid_rss_url url = true) :
    candidates world (url :: rest) = feedCandidates url (world url) ++ candidates world rest := by
  simp [candidates, List.filter_cons, h]

theorem candidates_cons_invalid (world : String → FetchOutcome) (url : String) (rest : List String)
    (h : _is_valid_rss_url url = false) :
    candidates world (url :: rest) = candidates world rest := by
  simp [candidates, List.filter_cons, h]

theorem runFeeds_state (world : String → FetchOutcome) (feeds : List String) :
    ∀ (i : Nat) (st : List String × List Job),
      (runFeeds world feeds i st).1 = dedupFold st (candidates world feeds) := by
  induction feeds with
  | nil => intro i st; rfl
  | cons url rest ih =>
    intro i st
    by_cases h : _is_valid_rss_url url = true
    · rw [candidates_cons_valid world url rest h, dedupFold_append, ← feedState_eq]
      simp only [runFeeds, h, if_true]
      exact ih _ _
    · rw [candidates_cons_invalid world url rest (by simpa using h)]
      simp only [runFeeds, h, if_false]
      exact ih _ _

theorem dedupFold_pair (l : List Job) : ∀ (seen : List String) (acc : List Job),
    dedupFold (seen, acc) l = (dedupSeen seen l, acc ++ dedupFirst seen l) := by
  induction l with
  | nil => intro seen acc; simp [dedupFold, dedupSeen, dedupFirst]
  | cons j rest ih =>
    intro seen acc
    by_cases h : _generate_job_key j ∈ seen
    · show dedupFold (dedupStep (seen, acc) j) rest = _
      simp only [dedupStep, h, if_pos, dedupSeen, dedupFirst, ih]
    · show dedupFold (dedupStep (seen, acc) j) rest = _
      simp only [dedupStep, dedupSeen, dedupFirst, h, if_neg, ih]
      simp

theorem parse_feeds_jobs_eq (world : String → FetchOutcome) (feeds : List String) :
    parse_feeds_jobs world feeds = dedupFirst [] (candidates world feeds) := by
  unfold parse_feeds_jobs
  rw [runFeeds_state, dedupFold_pair]
  simp

theorem dedupFirst_sublist (l : List Job) : ∀ seen : List String,
    (dedupFirst seen l).Sublist l := by
  induction l with
  | nil => intro seen; simp [dedupFirst]
  | cons j rest ih =>
    intro seen
    by_cases h : _generate_job_key j ∈ seen
    · simp only [dedupFirst, if_pos h]
      exact (ih seen).cons j
    · simp only [dedupFirst, if_neg h]
      exact (ih _).cons₂ j

theorem not_mem_seen_of_mem_dedupFirst (l : List Job) : ∀ (seen : List String) (x : Job),
    x ∈ dedupFirst seen l → _generate_job_key x ∉ seen := by
  induction l with
  | nil => intro seen x hx; simp [dedupFirst] at hx
  | cons j rest ih =>
    intro seen x hx
    by_cases h : _generate_job_key j ∈ seen
    · rw [dedupFirst, if_pos h] at hx
      exact ih seen x hx
    · rw [dedupFirst, if_neg h] at hx
      rcases List.mem_cons.mp hx with rfl | hx2
      · exact h
      · intro hs
        exact ih _ x hx2 (List.mem_cons_of_mem _ hs)

theorem dedupFirst_pairwise (l : List Job) : ∀ seen : List String,
    (dedupFirst seen l).Pairwise (fun a b => _generate_job_key a ≠ _generate_job_key b) := by
  induction l with
  | nil => intro seen; simp [dedupFirst]
  | cons j rest ih =>
    intro seen
    by_cases h : _generate_job_key j ∈ seen
    · simp only [dedupFirst, if_pos h]
      exact ih seen
    · simp only [dedupFirst, if_neg h]
      refine List.Pairwise.cons ?_ (ih _)
      intro y hy heq
      apply not_mem_seen_of_mem_dedupFirst rest _ y hy
      rw [← heq]
      exact List.mem_cons_self _ _

theorem dedupFirst_find (l : List Job) : ∀ (seen : List String) (x : Job),
    x ∈ dedupFirst seen l →
      l.find? (fun c => _generate_job_key c == _generate_job_key x) = some x := by
  induction l with
  | nil => intro seen x hx; simp [dedupFirst] at hx
  | cons j rest ih =>
    intro seen x hx
    by_cases h : _generate_job_key j ∈ seen
    · rw [dedupFirst, if_pos h] at hx
      have hne : _generate_job_key j ≠ _generate_job_key x := by
        intro he
        exact not_mem_seen_of_mem_dedupFirst rest seen x hx (he ▸ h)
      rw [List.find?_cons_of_neg _ (by simpa using hne)]
      exact ih seen x hx
    · rw [dedupFirst, if_neg h] at hx
      rcases List.mem_cons.mp hx with rfl | hx2
      · rw [List.find?_cons_of_pos _ (by simp)]
      · have hne : _generate_job_key j ≠ _generate_job_key x := by
          intro he
          apply not_mem_seen_of_mem_dedupFirst rest _ x hx2
          rw [← he]
          exact List.mem_cons_self _ _
        rw [List.find?_cons_of_neg _ (by simpa using hne)]
        exact ih _ x hx2

theorem dedupFirst_covers (l : List Job) : ∀ (seen : List String) (c : Job), c ∈ l →
    _generate_job_key c ∈ seen ∨
      ∃ x ∈ dedupFirst seen l, _generate_job_key x = _generate_job_key c := by
  induction l with
  | nil => intro seen c hc; simp at hc
  | cons j rest ih =>
    intro seen c hc
    by_cases h : _generate_job_key j ∈ seen
    · simp only [dedupFirst, if_pos h]
      rcases List.mem_cons.mp hc with rfl | hc2
      · exact Or.inl h
      · exact ih seen c hc2
    · simp only [dedupFirst, if_neg h]
      rcases List.mem_cons.mp hc with rfl | hc2
      · exact Or.inr ⟨c, List.mem_cons_self _ _, rfl⟩
      · rcases ih (_generate_job_key j :: seen) c hc2 with hs | ⟨x, hx, he⟩
        · rcases List.mem_cons.mp hs with he2 | hs2
          · exact Or.inr ⟨j, List.mem_cons_self _ _, he2.symm⟩
          · exact Or.inl hs2
        · exact Or.inr ⟨x, List.mem_cons_of_mem _ hx, he⟩

theorem candidates_valid (world : String → FetchOutcome) (feeds : List String) :
    ∀ j ∈ candidates world feeds, ¬(j.role = "" ∨ j.apply_link = "") := by
  intro j hj
  simp only [candidates, List.mem_flatMap] at hj
  obtain ⟨u, _, hj2⟩ := hj
  rcases hw : world u with _ | ⟨b, entries⟩
  · rw [hw] at hj2
    simp [feedCandidates] at hj2
  · rw [hw] at hj2
    simp only [feedCandidates, List.mem_flatMap] at hj2
    obtain ⟨eo, _, hj3⟩ := hj2
    cases eo with
    | raising => simp [entryCandidates] at hj3
    | ok e =>
      simp only [entryCandidates] at hj3
      by_cases hv : (_create_job_record e u).role = "" ∨ (_create_job_record e u).apply_link = ""
      · rw [if_pos hv] at hj3
        simp at hj3
      · rw [if_neg hv] at hj3
        rcases List.mem_singleton.mp hj3 with rfl
        exact hv

theorem key_of_triple_eq {a b : Job} (h : identityTriple a = identityTriple b) :
    _generate_job_key a = _generate_job_key b := by
  have h1 := congrArg (fun t : String × String × String => t.1) h
  have h2 := congrArg (fun t : String × String × String => t.2.1) h
  have h3 := congrArg (fun t : String × String × String => t.2.2) h
  simp only [identityTriple] at h1 h2 h3
  simp only [_generate_job_key, h1, h2, h3]

/-- C1: `parse_feeds` output lists never contain two records with the same
identity triple (lower-cased trimmed company/role, trimmed apply link); the
output is a sublist of the candidate stream taken in feed-supply order and
entry order (hence in first-seen order), and a candidate is retained exactly
when it is the first candidate carrying its identity key, so of two entries
with the same triple only the first-encountered can be retained, and every
key that occurs in the stream is represented. -/
theorem parse_feeds_first_seen_dedup (world : String → FetchOutcome) (feeds : List String) :
    parse_feeds true world feeds = Except.ok (parse_feeds_jobs world feeds)
    ∧ (parse_feeds_jobs world feeds).Pairwise (fun a b => identityTriple a ≠ identityTriple b)
    ∧ (parse_feeds_jobs world feeds).Sublist (candidates world feeds)
    ∧ (∀ c ∈ candidates world feeds,
        (c ∈ parse_feeds_jobs world feeds ↔
          (candidates world feeds).find?
            (fun x => _generate_job_key x == _generate_job_key c) = some c))
    ∧ ∀ c ∈ candidates world feeds,
        ∃ x ∈ parse_feeds_jobs world feeds,
          _generate_job_key x = _generate_job_key c := by
  refine ⟨?_, ?_, ?_, ?_, ?_⟩
  · cases feeds with
    | nil => rfl
    | cons u rest => rfl
  · rw [parse_feeds_jobs_eq]
    exact (dedupFirst_pairwise _ []).imp (fun hk ht => hk (key_of_triple_eq ht))
  · rw [parse_feeds_jobs_eq]
    exact dedupFirst_sublist _ []
  · intro c hc
    rw [parse_feeds_jobs_eq]
    constructor
    · intro hmem
      exact dedupFirst_find _ [] c hmem
    · intro hfind
      rcases dedupFirst_covers _ [] c hc with hs | ⟨x, hx, he⟩
      · simp at hs
      · have hfx := dedupFirst_find _ [] x hx
        rw [he] at hfx
        rw [hfind] at hfx
        rcases Option.some.inj hfx with rfl
        exact hx
  · intro c hc
    rw [parse_feeds_jobs_eq]
    rcases dedupFirst_covers _ [] c hc with hs | hex
    · simp at hs
    · exact hex

theorem parse_feeds_first_seen_dedup_witness :
    (candidates messyWorld [badFeedUrl, goodFeedUrl]).find?
      (fun x => _generate_job_key x == _generate_job_key jobA) = some jobA := by
  have h := parse_feeds_first_seen_dedup messyWorld [badFeedUrl, goodFeedUrl]
  exact (h.2.2.2.1 jobA (by decide)).mp (by decide)

/-- C2: every record returned by `parse_feeds` has a non-empty `role` and a
non-empty `apply_link`; candidates failing this are rejected. -/
theorem parse_feeds_role_link_nonempty (world : String → FetchOutcome) (feeds : List String) :
    ∀ j ∈ parse_feeds_jobs world feeds, j.role ≠ "" ∧ j.apply_link ≠ "" := by
  intro j hj
  rw [parse_feeds_jobs_eq] at hj
  have hc := (dedupFirst_sublist _ []).subset hj
  have hv := candidates_valid world feeds j hc
  exact ⟨fun h => hv (Or.inl h), fun h => hv (Or.inr h)⟩

theorem parse_feeds_role_link_nonempty_witness :
    jobA.role ≠ "" ∧ jobA.apply_link ≠ "" :=
  parse_feeds_role_link_nonempty twoEntryWorld [goodFeedUrl] jobA (by decide)

/-- C5: feed failures are isolated.  With the optional dependency installed,
`parse_feeds` always returns normally (no exception escapes the loop); in the
concrete scenario of one feed that raises on fetch and one feed with two
valid entries it returns exactly the two records of the successful feed, and
an entry whose processing raises does not block the remaining entries. -/
theorem parse_feeds_isolates_failures :
    (∀ (world : String → FetchOutcome) (feeds : List String),
        ∃ out, parse_feeds true world feeds = Except.ok out)
    ∧ parse_feeds true twoEntryWorld [badFeedUrl, goodFeedUrl] = Except.ok [jobA, jobB]
    ∧ parse_feeds true messyWorld [badFeedUrl, goodFeedUrl] = Except.ok [jobA, jobB] := by
  refine ⟨fun world feeds => ?_, by rfl, by rfl⟩
  cases feeds with
  | nil => exact ⟨[], rfl⟩
  | cons u rest => exact ⟨parse_feeds_jobs world (u :: rest), rfl⟩

/-- C6: an address that fails validation is skipped before the rate-limit
delay and before any fetch: its loop iteration contributes no event (no
sleep, no fetch) and no state change, the loop simply continuing with the
remaining addresses at the next index; moreover no fetch event for an
invalid address ever occurs in a run. -/
theorem parse_feeds_invalid_url_skipped (world : String → FetchOutcome) (url : String)
    (h : _is_valid_rss_url url = false) :
    (∀ (rest : List String) (i : Nat) (st : List String × List Job),
        runFeeds world (url :: rest) i st = runFeeds world rest (i + 1) st)
    ∧ ∀ (feeds : List String) (i : Nat) (st : List String × List Job),
        FeedEvent.fetch url ∉ (runFeeds world feeds i st).2 := by
  constructor
  · intro rest i st
    simp [runFeeds, h]
  · intro feeds
    induction feeds with
    | nil => intro i st; simp [runFeeds]
    | cons u rest ih =>
      intro i st
      by_cases hu : _is_valid_rss_url u = true
      · simp only [runFeeds, hu, if_true]
        intro hmem
        rcases List.mem_append.mp hmem with hs | hctail
        · split at hs
          · simp at hs
          · simp at hs
        · rcases List.mem_cons.mp hctail with hfe | ht
          · injection hfe with h2
            rw [← h2] at hu
            rw [h] at hu
            exact Bool.noConfusion hu
          · exact ih _ _ ht
      · simp only [runFeeds, hu, if_false]
        exact ih _ _

theorem parse_feeds_invalid_url_skipped_witness :
    runFeeds twoEntryWorld (("not a url") :: [goodFeedUrl]) 0 ([], []) =
      runFeeds twoEntryWorld [goodFeedUrl] 1 ([], []) :=
  (parse_feeds_invalid_url_skipped twoEntryWorld ("not a url") (by decide)).1 [goodFeedUrl] 0 ([], [])

/-- C8: `_generate_job_key` is not injective on identity triples: a company
containing the pipe delimiter collides with a differently-split triple, and
in one run the later of the two colliding records is dropped as a duplicate. -/
theorem generate_job_key_collision :
    _generate_job_key jKeyA = _generate_job_key jKeyB
    ∧ identityTriple jKeyA ≠ identityTriple jKeyB
    ∧ parse_feeds_jobs wKey [keyFeedUrl] = [jKeyA] := by
  decide

/-- C9: the optional-dependency check precedes the empty-input check: without
`feedparser`, `parse_feeds` raises `ModuleNotFoundError` on every input,
including the empty list; the empty list yields an empty result only when the
dependency is installed. -/
theorem parse_feeds_requires_feedparser :
    (∀ (world : String → FetchOutcome) (feeds : List String),
        parse_feeds false world feeds = Except.error PyError.moduleNotFoundError)
    ∧ ∀ world : String → FetchOutcome, parse_feeds true world [] = Except.ok [] :=
  ⟨fun _ _ => rfl, fun _ => rfl⟩

/-- C10: the company fallback chain falls through only on empty strings: an
author that is non-empty but all whitespace is selected by the `or` chain and
stripped to the empty string, so the company is `""`, not `"Unknown"`. -/
theorem create_job_record_whitespace_author (e : Entry) (url : String)
    (h1 : e.author ≠ "") (h2 : ∀ c ∈ e.author.toList, pyIsSpace c = true) :
    (_create_job_record e url).company = "" ∧ (_create_job_record e url).company ≠ ("Unknown") := by
  have hc : (_create_job_record e url).company = pyStrip e.author := by
    simp [_create_job_record, h1]
  have hs : stripList e.author.toList = [] := by
    unfold stripList stripWith
    rw [List.dropWhile_eq_nil_iff.mpr h2]
    exact List.rdropWhile_nil _
  rw [hc]
  unfold pyStrip
  rw [hs]
  exact ⟨rfl, by decide⟩

theorem create_job_record_whitespace_author_witness :
    (_create_job_record entryWsAuthor ("http://f.example/rss")).company = "" ∧
      (_create_job_record entryWsAuthor ("http://f.example/rss")).company ≠ ("Unknown") :=
  create_job_record_whitespace_author entryWsAuthor ("http://f.example/rss")
    (by decide) (by decide)

/-! ### Location extraction (C4) -/

/-- C4 counterexample: on an entry whose summary contains
`"Location: Seattle, WA"` the first location pattern's capture `[^,\n]+`
stops at the comma, so `_extract_location` returns `"Seattle"`, not the
claimed `"Seattle, WA"`. -/
theorem extract_location_comma_counterexample :
    _extract_location eSeattle = ("Seattle") ∧ _extract_location eSeattle ≠ ("Seattle, WA") := by
  decide

/-- C4 amended: an entry with no structured location field whose summary
contains `"Location: Seattle, WA"` yields `"Seattle"` (the capture stops at
the comma); an entry with no location cue yields the empty string. -/
theorem extract_location_amended :
    _extract_location eSeattle = ("Seattle") ∧ _extract_location eNoLocation = ("") := by
  decide

/-! ### Resume-bullet post-processing (C7) -/

theorem trimEnd_concat_pos (p : Char → Bool) (l : List Char) (x : Char) (hx : p x = true) :
    trimEnd p (l ++ [x]) = trimEnd p l := by
  induction l with
  | nil => simp [trimEnd, hx]
  | cons c cs ih =>
    show trimEnd p (c :: (cs ++ [x])) = trimEnd p (c :: cs)
    simp only [trimEnd, ih]

theorem trimEnd_concat_neg (p : Char → Bool) (l : List Char) (x : Char) (hx : p x = false) :
    trimEnd p (l ++ [x]) = l ++ [x] := by
  induction l with
  | nil => simp [trimEnd, hx]
  | cons c cs ih =>
    show trimEnd p (c :: (cs ++ [x])) = c :: (cs ++ [x])
    simp only [trimEnd, ih]
    cases cs with
    | nil => rfl
    | cons a as => rfl

theorem rdropWhile_eq_trimEnd (p : Char → Bool) (l : List Char) :
    List.rdropWhile p l = trimEnd p l := by
  induction l using List.reverseRecOn with
  | nil => rfl
  | append_singleton l x ih =>
    by_cases hx : p x = true
    · rw [List.rdropWhile_concat_pos p l x hx, trimEnd_concat_pos p l x hx, ih]
    · rw [List.rdropWhile_concat_neg p l x hx, trimEnd_concat_neg p l x (by simpa using hx)]

theorem dashSpace_pred (c : Char) :
    (("- ").toList.contains c) = (decide (c = '-' ∨ c = ' ')) := by
  by_cases h1 : c = '-'
  · simp [h1]
  · by_cases h2 : c = ' '
    · simp [h2]
    · simp [List.contains_cons, h1, h2]

theorem pyStripChars_dashSpace (line : String) :
    pyStripChars ("- ") line =
      String.mk (trimEnd (fun c => c = '-' ∨ c = ' ')
        (line.toList.dropWhile (fun c => c = '-' ∨ c = ' '))) := by
  unfold pyStripChars stripWith
  have hp : (fun c : Char => (("- ").toList.contains c)) =
      (fun c : Char => decide (c = '-' ∨ c = ' ')) := by
    funext c
    exact dashSpace_pred c
  rw [hp, rdropWhile_eq_trimEnd]

/-- C7 counterexample: the code strips dash/space characters from both ends
of a kept line (`line.strip("- ")`), so a completion line `"- alpha -"`
yields `"alpha"`, while the claim's leading-only trimming would keep the
trailing marker and yield `"alpha -"`. -/
theorem tailor_bullets_leading_trim_counterexample :
    tailor_resume_bullets completionDemo ("T") ("D") [] = [("alpha"), ("beta")]
    ∧ tailor_bullets_claimed completionDemo ("T") ("D") [] = [("alpha -"), ("beta")]
    ∧ (("alpha") : String) ≠ ("alpha -") := by
  refine ⟨by rfl, by rfl, by decide⟩

/-- C7 amended: for every completion text, `tailor_resume_bullets` returns
exactly the lines whose whitespace-trimmed form starts with a dash, in order,
each stripped of leading AND trailing characters drawn from the dash/space
set (applied to the original line) and otherwise unchanged. -/
theorem tailor_resume_bullets_amended (complete : String → String) (job_title job_desc : String)
    (base_bullets : List String) :
    tailor_resume_bullets complete job_title job_desc base_bullets =
      tailor_bullets_amended complete job_title job_desc base_bullets := by
  simp only [tailor_resume_bullets, tailor_bullets_amended]
  apply List.map_congr_left
  intro line _
  exact pyStripChars_dashSpace line

/-! ### Deadline extraction (C3): digit-character facts -/

theorem digitChar_isDigit : ∀ k, k < 10 → (digitChar k).isDigit = true := by decide

theorem digitVal_digitChar : ∀ k, k < 10 → digitVal (digitChar k) = k := by decide

theorem digitChar_not_space : ∀ k, k < 10 → pyIsSpace (digitChar k) = false := by decide

theorem digitChar_class : ∀ k, k < 10 → ¬(digitChar k = ',' ∨ digitChar k = '\n') := by decide

theorem digitChar_lc_ne_p : ∀ k, k < 10 → lcChar (digitChar k) ≠ lcChar ('p') := by decide

theorem digitChar_ne_zero : ∀ k, k < 10 → k ≠ 0 → digitChar k ≠ '0' := by decide

theorem pad2_mem (n : Nat) : ∀ c ∈ pad2 n, ∃ k, k < 10 ∧ c = digitChar k := by
  intro c hc
  rcases hc with _ | ⟨_, _ | ⟨_, h⟩⟩
  · exact ⟨n / 10 % 10, Nat.mod_lt _ (by omega), rfl⟩
  · exact ⟨n % 10, Nat.mod_lt _ (by omega), rfl⟩
  · cases h

theorem pad4_mem (n : Nat) : ∀ c ∈ pad4 n, ∃ k, k < 10 ∧ c = digitChar k := by
  intro c hc
  rcases hc with _ | ⟨_, _ | ⟨_, _ | ⟨_, _ | ⟨_, h⟩⟩⟩⟩
  · exact ⟨n / 1000 % 10, Nat.mod_lt _ (by omega), rfl⟩
  · exact ⟨n / 100 % 10, Nat.mod_lt _ (by omega), rfl⟩
  · exact ⟨n / 10 % 10, Nat.mod_lt _ (by omega), rfl⟩
  · exact ⟨n % 10, Nat.mod_lt _ (by omega), rfl⟩
  · cases h

/-- Every character of a rendered date is a digit or a separator. -/
theorem isoDateChars_mem (y m d : Nat) :
    ∀ c ∈ isoDateChars y m d, (∃ k, k < 10 ∧ c = digitChar k) ∨ c = '-' := by
  intro c hc
  rcases List.mem_append.mp hc with h | h
  · exact Or.inl (pad4_mem y c h)
  · rcases List.mem_cons.mp h with rfl | h2
    · exact Or.inr rfl
    · rcases List.mem_append.mp h2 with h3 | h3
      · exact Or.inl (pad2_mem m c h3)
      · rcases List.mem_cons.mp h3 with rfl | h4
        · exact Or.inr rfl
        · exact Or.inl (pad2_mem d c h4)

theorem mdyDateChars_mem (m d y : Nat) :
    ∀ c ∈ mdyDateChars m d y, (∃ k, k < 10 ∧ c = digitChar k) ∨ c = '/' := by
  intro c hc
  rcases List.mem_append.mp hc with h | h
  · exact Or.inl (pad2_mem m c h)
  · rcases List.mem_cons.mp h with rfl | h2
    · exact Or.inr rfl
    · rcases List.mem_append.mp h2 with h3 | h3
      · exact Or.inl (pad2_mem d c h3)
      · rcases List.mem_cons.mp h3 with rfl | h4
        · exact Or.inr rfl
        · exact Or.inl (pad4_mem y c h4)

/-- Date characters are not whitespace, not in the excluded capture class,
and never case-fold to the letter of interest in the earlier label. -/
theorem dateChars_clean (l : List Char)
    (h : ∀ c ∈ l, (∃ k, k < 10 ∧ c = digitChar k) ∨ c = '-' ∨ c = '/') :
    ∀ c ∈ l, pyIsSpace c = false ∧ ¬(c = ',' ∨ c = '\n') ∧ lcChar c ≠ lcChar ('p') := by
  intro c hc
  rcases h c hc with ⟨k, hk, rfl⟩ | rfl | rfl
  · exact ⟨digitChar_not_space k hk, digitChar_class k hk, digitChar_lc_ne_p k hk⟩
  · exact ⟨by decide, by decide, by decide⟩
  · exact ⟨by decide, by decide, by decide⟩

/-! ### Deadline extraction (C3): search lemmas -/

/-- A successful case-insensitive label match pulls every label character
(up to case) out of the scanned text. -/
theorem matchLabelAt_mem_lc (lab : List Char) : ∀ (s r : List Char),
    matchLabelAt lab s = some r → ∀ c ∈ lab, ∃ d ∈ s, lcChar d = lcChar c := by
  induction lab with
  | nil => intro s r h c hc; simp at hc
  | cons a la ih =>
    intro s r h c hc
    cases s with
    | nil => simp [matchLabelAt] at h
    | cons x xs =>
      simp only [matchLabelAt] at h
      by_cases he : lcChar x = lcChar a
      · rw [if_pos he] at h
        rcases List.mem_cons.mp hc with rfl | hc2
        · exact ⟨x, List.mem_cons_self _ _, he⟩
        · obtain ⟨d, hd, hlc⟩ := ih xs r h c hc2
          exact ⟨d, List.mem_cons_of_mem _ hd, hlc⟩
      · rw [if_neg he] at h
        cases h

/-- If some label character (up to case) never occurs in the text, the
labelled search fails everywhere. -/
theorem searchCapture_none_of_absent (lab : List Char) (ch : Char) (hch : ch ∈ lab) :
    ∀ s : List Char, (∀ d ∈ s, lcChar d ≠ lcChar ch) → searchCapture lab s = none := by
  intro s
  induction s with
  | nil => intro _; rfl
  | cons x xs ih =>
    intro habs
    rcases hm : matchLabelAt lab (x :: xs) with _ | r
    · simp only [searchCapture, hm]
      exact ih fun d hd => habs d (List.mem_cons_of_mem _ hd)
    · obtain ⟨d, hd, hlc⟩ := matchLabelAt_mem_lc lab _ r hm ch hch
      exact absurd hlc (habs d hd)

/-- A match of the full pattern at the first position wins the search. -/
theorem searchCapture_cons_some (lab : List Char) (c : Char) (cs rest cap : List Char)
    (h1 : matchLabelAt lab (c :: cs) = some rest) (h2 : capTail rest = some cap) :
    searchCapture lab (c :: cs) = some cap := by
  simp only [searchCapture, h1, h2]

/-- `\s*([^,\n]+)` after the label: one space of whitespace, then a capture
running to the end of the clean remainder. -/
theorem capTail_space (c0 : Char) (ts : List Char) (h0 : pyIsSpace c0 = false)
    (hcl : ∀ c ∈ c0 :: ts ++ [' '], ¬(c = ',' ∨ c = '\n')) :
    capTail (' ' :: (c0 :: ts ++ [' '])) = some (c0 :: ts ++ [' ']) := by
  have hws : wsCount (' ' :: (c0 :: ts ++ [' '])) = 1 := by
    show (if pyIsSpace ' ' then wsCount (c0 :: ts ++ [' ']) + 1 else 0) = 1
    rw [if_pos (by decide)]
    show (if pyIsSpace c0 then wsCount (ts ++ [' ']) + 1 else 0) + 1 = 1
    rw [h0]
    simp
  have hrun : classRun (c0 :: ts ++ [' ']) = c0 :: ts ++ [' '] := by
    unfold classRun
    apply List.takeWhile_eq_self_iff.mpr
    intro c hc
    simpa using hcl c hc
  unfold capTail
  rw [hws]
  show (if (classRun ((' ' :: (c0 :: ts ++ [' '])).drop 1)).isEmpty then
          capFrom (' ' :: (c0 :: ts ++ [' '])) 0
        else some (classRun ((' ' :: (c0 :: ts ++ [' '])).drop 1))) = _
  rw [show (' ' :: (c0 :: ts ++ [' '])).drop 1 = c0 :: ts ++ [' '] from rfl, hrun]
  simp

/-- Stripping a clean capture removes exactly the trailing space. -/
theorem stripList_concat_space (c0 : Char) (ts : List Char) (h0 : pyIsSpace c0 = false)
    (hns : ∀ c ∈ c0 :: ts, pyIsSpace c = false) :
    stripList ((c0 :: ts) ++ [' ']) = c0 :: ts := by
  unfold stripList stripWith
  have h1 : List.dropWhile pyIsSpace ((c0 :: ts) ++ [' ']) = (c0 :: ts) ++ [' '] := by
    rw [List.cons_append, List.dropWhile_cons, h0]
    simp
  rw [h1, List.rdropWhile_concat_pos _ _ _ (by decide)]
  apply List.rdropWhile_eq_self_iff.mpr
  intro hl
  have := hns _ (List.getLast_mem hl)
  simp [this]

theorem toList_mk (l : List Char) : (String.mk l).toList = l := rfl

theorem toList_append (a b : String) : (a ++ b).toList = a.toList ++ b.toList :=
  String.data_append a b

/-- The earlier pattern `Apply by:` never matches a deadline content whose
date part is clean: the letter `p` does not occur. -/
theorem apply_by_none (dc : List Char) (hclean : ∀ c ∈ dc, lcChar c ≠ lcChar ('p')) :
    searchCapture (("Apply by:").toList) (("Deadline: ").toList ++ (dc ++ [' '])) = none := by
  apply searchCapture_none_of_absent _ ('p') (by decide)
  intro x hx
  rcases List.mem_append.mp hx with h | h
  · exact (by decide : ∀ c ∈ ("Deadline: ").toList, lcChar c ≠ lcChar ('p')) x h
  · rcases List.mem_append.mp h with h2 | h2
    · exact hclean x h2
    · rcases List.mem_cons.mp h2 with rfl | h3
      · decide
      · cases h3

/-! ### Deadline extraction (C3): strptime lemmas -/

theorem digitVal_one : digitVal ('1') = 1 := by decide

theorem digitVal_two : digitVal ('2') = 2 := by decide

theorem matchY4_pad4 (y : Nat) (hy : y ≤ 9999) (rest : List Char) :
    matchY4 (pad4 y ++ rest) = some (y, rest) := by
  have h0 := digitChar_isDigit (y / 1000 % 10) (Nat.mod_lt _ (by omega))
  have h1 := digitChar_isDigit (y / 100 % 10) (Nat.mod_lt _ (by omega))
  have h2 := digitChar_isDigit (y / 10 % 10) (Nat.mod_lt _ (by omega))
  have h3 := digitChar_isDigit (y % 10) (Nat.mod_lt _ (by omega))
  have v0 := digitVal_digitChar (y / 1000 % 10) (Nat.mod_lt _ (by omega))
  have v1 := digitVal_digitChar (y / 100 % 10) (Nat.mod_lt _ (by omega))
  have v2 := digitVal_digitChar (y / 10 % 10) (Nat.mod_lt _ (by omega))
  have v3 := digitVal_digitChar (y % 10) (Nat.mod_lt _ (by omega))
  show matchY4 (digitChar (y / 1000 % 10) :: digitChar (y / 100 % 10) ::
      digitChar (y / 10 % 10) :: digitChar (y % 10) :: rest) = some (y, rest)
  simp only [matchY4]
  rw [if_pos ⟨h0, h1, h2, h3⟩, v0, v1, v2, v3]
  have hval : ((y / 1000 % 10 * 10 + y / 100 % 10) * 10 + y / 10 % 10) * 10 + y % 10 = y := by
    omega
  rw [hval]

theorem altM_pad2 (m : Nat) (h1 : 1 ≤ m) (h2 : m ≤ 12) (rest : List Char) :
    ∃ tl, altM (pad2 m ++ rest) = (m, rest) :: tl := by
  by_cases hm : m < 10
  · have e0 : m / 10 % 10 = 0 := by omega
    have e1 : m % 10 = m := by omega
    have hd := digitChar_isDigit m hm
    have hnz := digitChar_ne_zero m hm (by omega)
    have hv := digitVal_digitChar m hm
    refine ⟨[], ?_⟩
    show altM (digitChar (m / 10 % 10) :: digitChar (m % 10) :: rest) = [(m, rest)]
    rw [e0, e1]
    show altM ('0' :: digitChar m :: rest) = [(m, rest)]
    simp [altM, hd, hnz, hv]
  · interval_cases m
    · exact ⟨[(1, '0' :: rest)], rfl⟩
    · exact ⟨[(1, '1' :: rest)], rfl⟩
    · exact ⟨[(1, '2' :: rest)], rfl⟩

theorem altD_pad2 (d : Nat) (h1 : 1 ≤ d) (h2 : d ≤ 31) (rest : List Char) :
    ∃ tl, altD (pad2 d ++ rest) = (d, rest) :: tl := by
  by_cases hd : d < 10
  · have e0 : d / 10 % 10 = 0 := by omega
    have e1 : d % 10 = d := by omega
    have hdd := digitChar_isDigit d hd
    have hnz := digitChar_ne_zero d hd (by omega)
    have hv := digitVal_digitChar d hd
    refine ⟨[], ?_⟩
    show altD (digitChar (d / 10 % 10) :: digitChar (d % 10) :: rest) = [(d, rest)]
    rw [e0, e1]
    show altD ('0' :: digitChar d :: rest) = [(d, rest)]
    simp [altD, hdd, hnz, hv]
  · by_cases hd2 : d < 20
    · have e0 : d / 10 % 10 = 1 := by omega
      have hdd := digitChar_isDigit (d % 10) (Nat.mod_lt _ (by omega))
      have hv := digitVal_digitChar (d % 10) (Nat.mod_lt _ (by omega))
      refine ⟨[(1, digitChar (d % 10) :: rest)], ?_⟩
      show altD (digitChar (d / 10 % 10) :: digitChar (d % 10) :: rest) = _
      rw [e0]
      show altD ('1' :: digitChar (d % 10) :: rest) = _
      simp [altD, hdd, hv, digitVal_one]
      omega
    · by_cases hd3 : d < 30
      · have e0 : d / 10 % 10 = 2 := by omega
        have hdd := digitChar_isDigit (d % 10) (Nat.mod_lt _ (by omega))
        have hv := digitVal_digitChar (d % 10) (Nat.mod_lt _ (by omega))
        refine ⟨[(2, digitChar (d % 10) :: rest)], ?_⟩
        show altD (digitChar (d / 10 % 10) :: digitChar (d % 10) :: rest) = _
        rw [e0]
        show altD ('2' :: digitChar (d % 10) :: rest) = _
        simp [altD, hdd, hv, digitVal_two]
        omega
      · interval_cases d
        · exact ⟨[(3, '0' :: rest)], rfl⟩
        · exact ⟨[(3, '1' :: rest)], rfl⟩

theorem findSome?_head {α β : Type} (f : α → Option β) (a : α) (l : List α) (b : β)
    (h : f a = some b) : (a :: l).findSome? f = some b := by
  rw [List.findSome?_cons, h]

theorem regexYmd_iso (y m d : Nat) (hy : y ≤ 9999) (hm1 : 1 ≤ m) (hm2 : m ≤ 12)
    (hd1 : 1 ≤ d) (hd2 : d ≤ 31) :
    regexYmd (isoDateChars y m d) = some (y, m, d) := by
  obtain ⟨tlm, hmEq⟩ := altM_pad2 m hm1 hm2 ('-' :: pad2 d)
  obtain ⟨tld, hdEq0⟩ := altD_pad2 d hd1 hd2 []
  have hdEq : altD (pad2 d) = (d, ([] : List Char)) :: tld := by
    rw [← hdEq0, List.append_nil]
  show regexYmd (pad4 y ++ ('-' :: (pad2 m ++ ('-' :: pad2 d)))) = some (y, m, d)
  unfold regexYmd
  rw [matchY4_pad4 y hy]
  show List.findSome? _ (altM (pad2 m ++ ('-' :: pad2 d))) = some (y, m, d)
  rw [hmEq]
  apply findSome?_head
  show List.findSome? _ (altD (pad2 d)) = some (y, m, d)
  rw [hdEq]
  apply findSome?_head
  show (if ([] : List Char).isEmpty then some (y, m, d) else none) = some (y, m, d)
  simp

theorem regexYmd_mdy_none (m d y : Nat) :
    regexYmd (mdyDateChars m d y) = none := by
  have hslash : ('/').isDigit = false := by decide
  show regexYmd (digitChar (m / 10 % 10) :: digitChar (m % 10) :: '/' ::
      digitChar (d / 10 % 10) :: digitChar (d % 10) :: '/' :: pad4 y) = none
  unfold regexYmd
  simp [matchY4, hslash]

theorem regexMdY_mdy (y m d : Nat) (hy : y ≤ 9999) (hm1 : 1 ≤ m) (hm2 : m ≤ 12)
    (hd1 : 1 ≤ d) (hd2 : d ≤ 31) :
    regexMdY (mdyDateChars m d y) = some (y, m, d) := by
  obtain ⟨tlm, hmEq⟩ := altM_pad2 m hm1 hm2 ('/' :: (pad2 d ++ ('/' :: pad4 y)))
  obtain ⟨tld, hdEq⟩ := altD_pad2 d hd1 hd2 ('/' :: pad4 y)
  have hY : matchY4 (pad4 y) = some (y, ([] : List Char)) := by
    have := matchY4_pad4 y hy []
    rwa [List.append_nil] at this
  show regexMdY (pad2 m ++ ('/' :: (pad2 d ++ ('/' :: pad4 y)))) = some (y, m, d)
  unfold regexMdY
  rw [hmEq]
  apply findSome?_head
  show List.findSome? _ (altD (pad2 d ++ ('/' :: pad4 y))) = some (y, m, d)
  rw [hdEq]
  apply findSome?_head
  show (match matchY4 (pad4 y) with
        | some (yv, r5) => if r5.isEmpty then some (yv, m, d) else none
        | none => none) = some (y, m, d)
  rw [hY]
  simp

theorem daysInMonth_le_31 (y m : Nat) : daysInMonth y m ≤ 31 := by
  unfold daysInMonth
  split
  · split <;> omega
  · split <;> omega

theorem strptimeDate_iso (y m d : Nat) (hy1 : 1 ≤ y) (hy : y ≤ 9999) (hm1 : 1 ≤ m)
    (hm2 : m ≤ 12) (hd1 : 1 ≤ d) (hdim : d ≤ daysInMonth y m) :
    strptimeDate regexYmd (isoDateStr y m d) = some (PyDate.mk y m d) := by
  unfold strptimeDate
  rw [show (isoDateStr y m d).toList = isoDateChars y m d from rfl]
  rw [regexYmd_iso y m d hy hm1 hm2 hd1 (le_trans hdim (daysInMonth_le_31 y m))]
  show mkDate y m d = some (PyDate.mk y m d)
  unfold mkDate
  rw [if_pos ⟨hy1, hy, hm1, hm2, hd1, hdim⟩]

theorem strptimeDate_mdy_ymd_none (m d y : Nat) :
    strptimeDate regexYmd (mdyDateStr m d y) = none := by
  unfold strptimeDate
  rw [show (mdyDateStr m d y).toList = mdyDateChars m d y from rfl]
  rw [regexYmd_mdy_none m d y]

theorem strptimeDate_mdy (y m d : Nat) (hy1 : 1 ≤ y) (hy : y ≤ 9999) (hm1 : 1 ≤ m)
    (hm2 : m ≤ 12) (hd1 : 1 ≤ d) (hdim : d ≤ daysInMonth y m) :
    strptimeDate regexMdY (mdyDateStr m d y) = some (PyDate.mk y m d) := by
  unfold strptimeDate
  rw [show (mdyDateStr m d y).toList = mdyDateChars m d y from rfl]
  rw [regexMdY_mdy y m d hy hm1 hm2 hd1 (le_trans hdim (daysInMonth_le_31 y m))]
  show mkDate y m d = some (PyDate.mk y m d)
  unfold mkDate
  rw [if_pos ⟨hy1, hy, hm1, hm2, hd1, hdim⟩]

theorem tryFormats_iso (y m d : Nat) (hy1 : 1 ≤ y) (hy : y ≤ 9999) (hm1 : 1 ≤ m)
    (hm2 : m ≤ 12) (hd1 : 1 ≤ d) (hdim : d ≤ daysInMonth y m) :
    tryFormats (isoDateStr y m d) = isoDateStr y m d := by
  unfold tryFormats
  rw [strptimeDate_iso y m d hy1 hy hm1 hm2 hd1 hdim]
  rfl

theorem tryFormats_mdy (y m d : Nat) (hy1 : 1 ≤ y) (hy : y ≤ 9999) (hm1 : 1 ≤ m)
    (hm2 : m ≤ 12) (hd1 : 1 ≤ d) (hdim : d ≤ daysInMonth y m) :
    tryFormats (mdyDateStr m d y) = isoDateStr y m d := by
  unfold tryFormats
  rw [strptimeDate_mdy_ymd_none m d y]
  rw [strptimeDate_mdy y m d hy1 hy hm1 hm2 hd1 hdim]
  rfl

/-- The deadline extraction on a summary `"Deadline: " + text`, where the
text is non-empty, whitespace-free, capture-class-clean and free of the
letter that would let the earlier `Apply by:` pattern fire: the loop reaches
the `Deadline:` pattern, captures text plus the concatenation space, strips
the space back off, and hands the text to the date-format loop. -/
theorem extract_deadline_on_date (c0 : Char) (ts : List Char)
    (hclean : ∀ c ∈ c0 :: ts,
      pyIsSpace c = false ∧ ¬(c = ',' ∨ c = '\n') ∧ lcChar c ≠ lcChar ('p')) :
    _extract_deadline { summary := ("Deadline: ") ++ String.mk (c0 :: ts) } =
      tryFormats (String.mk (c0 :: ts)) := by
  have hcontent :
      ((({ summary := ("Deadline: ") ++ String.mk (c0 :: ts) } : Entry).summary ++ (" ") ++
        ({ summary := ("Deadline: ") ++ String.mk (c0 :: ts) } : Entry).description)).toList =
      ("Deadline: ").toList ++ ((c0 :: ts) ++ [' ']) := by
    show ((("Deadline: ") ++ String.mk (c0 :: ts) ++ (" ") ++ ("" : String))).toList = _
    rw [toList_append, toList_append, toList_append, toList_mk]
    show ((("Deadline: ").toList ++ (c0 :: ts)) ++ [' ']) ++ [] = _
    rw [List.append_nil, List.append_assoc]
    rfl
  have hclass : ∀ c ∈ (c0 :: ts) ++ [' '], ¬(c = ',' ∨ c = '\n') := by
    intro c hc
    rcases List.mem_append.mp hc with h | h
    · exact (hclean c h).2.1
    · rcases List.mem_cons.mp h with rfl | h2
      · decide
      · cases h2
  have hmatch : matchLabelAt (("Deadline:").toList)
      (("Deadline: ").toList ++ ((c0 :: ts) ++ [' '])) = some (' ' :: ((c0 :: ts) ++ [' '])) :=
    rfl
  have hcap : capTail (' ' :: ((c0 :: ts) ++ [' '])) = some ((c0 :: ts) ++ [' ']) :=
    capTail_space c0 ts (hclean c0 (List.mem_cons_self _ _)).1 hclass
  have hsc : searchCapture (("Deadline:").toList)
      (("Deadline: ").toList ++ ((c0 :: ts) ++ [' '])) = some ((c0 :: ts) ++ [' ']) :=
    searchCapture_cons_some (("Deadline:").toList) 'D'
      ((("eadline: ").toList ++ ((c0 :: ts) ++ [' ']))) (' ' :: ((c0 :: ts) ++ [' ']))
      ((c0 :: ts) ++ [' ']) hmatch hcap
  have hstrip : stripList ((c0 :: ts) ++ [' ']) = c0 :: ts :=
    stripList_concat_space c0 ts (hclean c0 (List.mem_cons_self _ _)).1
      (fun c hc => (hclean c hc).1)
  unfold _extract_deadline
  rw [hcontent]
  simp only [DEADLINE_LABELS, deadlineLoop]
  rw [apply_by_none (c0 :: ts) (fun c hc => (hclean c hc).2.2)]
  rw [hsc]
  show tryFormats (String.mk (stripList ((c0 :: ts) ++ [' ']))) = _
  rw [hstrip]

theorem extract_deadline_iso_universal (y m d : Nat) (hy1 : 1 ≤ y) (hy : y ≤ 9999)
    (hm1 : 1 ≤ m) (hm2 : m ≤ 12) (hd1 : 1 ≤ d) (hdim : d ≤ daysInMonth y m) :
    _extract_deadline { summary := ("Deadline: ") ++ isoDateStr y m d } = isoDateStr y m d := by
  have hclean : ∀ c ∈ isoDateChars y m d,
      pyIsSpace c = false ∧ ¬(c = ',' ∨ c = '\n') ∧ lcChar c ≠ lcChar ('p') :=
    dateChars_clean _ (fun c hc => by
      rcases isoDateChars_mem y m d c hc with h | h
      · exact Or.inl h
      · exact Or.inr (Or.inl h))
  have h := extract_deadline_on_date (digitChar (y / 1000 % 10))
    (digitChar (y / 100 % 10) :: digitChar (y / 10 % 10) :: digitChar (y % 10) ::
      ('-' :: (pad2 m ++ ('-' :: pad2 d)))) hclean
  exact h.trans (tryFormats_iso y m d hy1 hy hm1 hm2 hd1 hdim)

theorem extract_deadline_mdy_universal (y m d : Nat) (hy1 : 1 ≤ y) (hy : y ≤ 9999)
    (hm1 : 1 ≤ m) (hm2 : m ≤ 12) (hd1 : 1 ≤ d) (hdim : d ≤ daysInMonth y m) :
    _extract_deadline { summary := ("Deadline: ") ++ mdyDateStr m d y } = isoDateStr y m d := by
  have hclean : ∀ c ∈ mdyDateChars m d y,
      pyIsSpace c = false ∧ ¬(c = ',' ∨ c = '\n') ∧ lcChar c ≠ lcChar ('p') :=
    dateChars_clean _ (fun c hc => by
      rcases mdyDateChars_mem m d y c hc with h | h
      · exact Or.inl h
      · exact Or.inr (Or.inr h))
  have h := extract_deadline_on_date (digitChar (m / 10 % 10))
    (digitChar (m % 10) :: ('/' :: (pad2 d ++ ('/' :: pad4 y)))) hclean
  exact h.trans (tryFormats_mdy y m d hy1 hy hm1 hm2 hd1 hdim)

/-- C3 counterexample: `"Deadline: March 15, 2024"` is a deadline label
followed by a date in `Month DD, YYYY` format, one of the four listed
formats, but the capture `[^,\n]+` stops at the comma: the result is the raw
text `"March 15"`, not the ISO date `"2024-03-15"`. -/
theorem extract_deadline_comma_counterexample :
    _extract_deadline eDeadlineComma = ("March 15")
    ∧ _extract_deadline eDeadlineComma ≠ ("2024-03-15") := by
  decide

/-- C3 amended: the pattern/format cascade behaves as described on the
comma-free formats: `"Deadline: 2024-05-01"` yields `"2024-05-01"`,
unparseable captured text is returned raw (`"next Friday"`), no pattern
yields empty, and for every calendar date with a four-digit year a summary
that is exactly `"Deadline: "` followed by the date in `YYYY-MM-DD` or
`MM/DD/YYYY` format yields that date in ISO form.  (The comma-containing
formats `Month DD, YYYY` and `Mon DD, YYYY` are excluded: the capture class
cannot cross the comma, see the counterexample.) -/
theorem extract_deadline_amended :
    _extract_deadline eDeadlineIsoEx = ("2024-05-01")
    ∧ _extract_deadline eDeadlineFriday = ("next Friday")
    ∧ _extract_deadline eNoDeadline = ("")
    ∧ ∀ y m d : Nat, 1 ≤ y → y ≤ 9999 → 1 ≤ m → m ≤ 12 → 1 ≤ d → d ≤ daysInMonth y m →
        _extract_deadline { summary := ("Deadline: ") ++ isoDateStr y m d } = isoDateStr y m d
        ∧ _extract_deadline { summary := ("Deadline: ") ++ mdyDateStr m d y } =
            isoDateStr y m d := by
  refine ⟨by decide, by decide, by decide, ?_⟩
  intro y m d hy1 hy hm1 hm2 hd1 hdim
  exact ⟨extract_deadline_iso_universal y m d hy1 hy hm1 hm2 hd1 hdim,
    extract_deadline_mdy_universal y m d hy1 hy hm1 hm2 hd1 hdim⟩

theorem extract_deadline_amended_witness :
    _extract_deadline { summary := ("Deadline: ") ++ isoDateStr 2024 2 29 } =
      isoDateStr 2024 2 29 :=
  ((extract_deadline_amended.2.2.2) 2024 2 29 (by decide) (by decide) (by decide) (by decide)
    (by decide) (by decide)).1
